import Mathlib

/-!
Verification of the audible-api scraping library.

Strings are modelled as `List Char`; each JavaScript regex operation used by
the source is embedded as an explicit scanning function with JavaScript's
leftmost-match semantics.  Character classes (`\s`, `\w`, `.`) are modelled on
the character sets the source can realistically see (ASCII plus NBSP); JS
`Number` is modelled as `Option ℚ` with `none` standing for `NaN`.
-/

namespace AudibleApi

/-- Model of the JS `\s` class and of the characters removed by `String.trim`
(ASCII whitespace plus no-break space). -/
def jsWs (c : Char) : Bool :=
  c.toNat = 32 || c.toNat = 9 || c.toNat = 10 || c.toNat = 11 ||
  c.toNat = 12 || c.toNat = 13 || c.toNat = 160

/-- Model of the JS `\w` class: `[A-Za-z0-9_]`. -/
def isWordChar (c : Char) : Bool :=
  ('a' ≤ c && c ≤ 'z') || ('A' ≤ c && c ≤ 'Z') || ('0' ≤ c && c ≤ '9') || c = '_'

/-- ASCII model of `String.prototype.toLowerCase`, which is what the
case-insensitive `/i` regex flags of the source compare through. -/
def jsToLower (c : Char) : Char :=
  if 'A' ≤ c && c ≤ 'Z' then Char.ofNat (c.toNat + 32) else c

def toLowerL (l : List Char) : List Char := l.map jsToLower

/-- Convert a Lean string literal to the `List Char` model. -/
def strL (s : String) : List Char := s.toList

/-- Model of `String.prototype.trim`. -/
def jsTrim (l : List Char) : List Char :=
  ((l.dropWhile jsWs).reverse.dropWhile jsWs).reverse

/-- One-pass scan underlying `replace(/\s{2,}/g, " ")`.  The flag records that
the scan is inside a whitespace run whose single replacement space has already
been emitted, so the remaining run characters are dropped.  A whitespace
character followed by a non-whitespace one is a run of length 1, which the
regex does not touch. -/
def collapseWsAux : Bool → List Char → List Char
  | _, [] => []
  | inRun, [c] => if jsWs c then (if inRun then [] else [c]) else [c]
  | inRun, c :: d :: rest =>
    if jsWs c then
      if inRun then collapseWsAux true (d :: rest)
      else if jsWs d then ' ' :: collapseWsAux true (d :: rest)
      else c :: collapseWsAux false (d :: rest)
    else c :: collapseWsAux false (d :: rest)

/-- Model of `replace(/\s{2,}/g, " ")`: every maximal run of two or more
whitespace characters becomes a single space. -/
def collapseWs (l : List Char) : List Char := collapseWsAux false l

/-- The class `[\w\s-]` of the series-suffix regex in `cleanTitle`. -/
def bookClass (c : Char) : Bool := isWordChar c || jsWs c || c = '-'

/-- Does the text following a comma complete a match of `/, book [\w\s-]+$/i`?
The argument is everything after the comma; the `+` is anchored to the end of
the string, so the tail must be nonempty and entirely inside the class. -/
def bookSuffix : List Char → Bool
  | ' ' :: b :: o1 :: o2 :: k :: ' ' :: tail =>
    jsToLower b = 'b' && jsToLower o1 = 'o' && jsToLower o2 = 'o' &&
    jsToLower k = 'k' && !tail.isEmpty && tail.all bookClass
  | _ => false

/-- Model of `replace(/, book [\w\s-]+$/i, "")`: the scan finds the leftmost
comma at which the rest of the string completes the anchored pattern and drops
everything from there on. -/
def replaceBook : List Char → List Char
  | [] => []
  | c :: rest => if c = ',' && bookSuffix rest then [] else c :: replaceBook rest

/-- Case-insensitive suffix test (pattern given in lowercase). -/
def endsWithCI (l p : List Char) : Bool := p.isSuffixOf (toLowerL l)

/-- Drop the last `n` characters. -/
def dropLastN (l : List Char) (n : Nat) : List Char := l.take (l.length - n)

/-- Model of `replace(/\(?unabridged\)?$/i)` — note the source passes **no
replacement argument**, so JavaScript substitutes the string `"undefined"` for
the match.  Because the pattern is anchored at `$`, a match is exactly one of
four possible suffixes; the leftmost (hence longest) one is replaced. -/
def replaceUnabr (l : List Char) : List Char :=
  if endsWithCI l (strL "(unabridged)") then dropLastN l 12 ++ strL "undefined"
  else if endsWithCI l (strL "(unabridged") then dropLastN l 11 ++ strL "undefined"
  else if endsWithCI l (strL "unabridged)") then dropLastN l 11 ++ strL "undefined"
  else if endsWithCI l (strL "unabridged") then dropLastN l 10 ++ strL "undefined"
  else l

/-- Embedding of `cleanTitle` from `src/utils/string.js`: falsy input is
returned unchanged; otherwise trim, strip a trailing `, book …` suffix, apply
the (argument-less) unabridged replacement, and collapse whitespace runs. -/
def cleanTitle (title : List Char) : List Char :=
  if title.isEmpty then title
  else collapseWs (jsTrim (replaceUnabr (jsTrim (replaceBook (jsTrim title)))))

/-- Absence of two adjacent whitespace characters, the invariant established
by `collapseWs`. -/
def noWsPairB : List Char → Bool
  | a :: b :: rest => !(jsWs a && jsWs b) && noWsPairB (b :: rest)
  | _ => true

/-- JS `.` without the `s` flag: any character except a line terminator
(LF, CR, LINE SEPARATOR, PARAGRAPH SEPARATOR). -/
def dotOk (c : Char) : Bool :=
  !(c.toNat = 10 || c.toNat = 13 || c.toNat = 8232 || c.toNat = 8233)

/-- Scan of `replace(/\?.*$/, "")`: the match starts at the leftmost `?` whose
entire remainder consists of `.`-matchable characters (the pattern is anchored
at the true end of input, so a later line terminator blocks the match). -/
def stripFromQuery : List Char → List Char
  | [] => []
  | c :: rest => if c = '?' && rest.all dotOk then [] else c :: stripFromQuery rest

/-- Embedding of `cleanUrl` from `src/utils/string.js`:
`url.replace(/\?.*$/, "").trim()`. -/
def cleanUrl (url : List Char) : List Char := jsTrim (stripFromQuery url)

/-- The literal `ref=` of the narrator-URL regex. -/
def refPat : List Char := ['r', 'e', 'f', '=']

/-- Scan of `replace(/[?&]ref=.*$/, "")`: the match starts at the leftmost
`?ref=` or `&ref=` whose remainder is `.`-matchable to the end. -/
def stripFromRef : List Char → List Char
  | [] => []
  | c :: rest =>
    if (c = '?' || c = '&') && refPat.isPrefixOf rest && (rest.drop 4).all dotOk then []
    else c :: stripFromRef rest

/-- Embedding of `cleanNarratorUrl` from `src/utils/string.js`:
`url.replace(/[?&]ref=.*$/, "").trim()`. -/
def cleanNarratorUrl (url : List Char) : List Char := jsTrim (stripFromRef url)

/-- Does the string contain a `?ref=` or `&ref=` occurrence? -/
def containsRefMarker : List Char → Bool
  | [] => false
  | c :: rest =>
    ((c = '?' || c = '&') && refPat.isPrefixOf rest) || containsRefMarker rest

/-- Decimal digit, by code point (48–57). -/
def isDigitChar (c : Char) : Bool := 48 ≤ c.toNat && c.toNat ≤ 57

/-- Value of a digit string (most significant first). -/
def natOfDigits (l : List Char) : Nat :=
  l.foldl (fun acc c => acc * 10 + (c.toNat - 48)) 0

/-- Model of JS `Number(string)` (string-to-number coercion), restricted to
the grammar the scraped pages produce: optional whitespace, optional sign,
decimal digits with an optional fraction part.  `none` stands for `NaN`; the
empty (or all-whitespace) string coerces to `0`.  Exponents, hex literals and
`Infinity` are outside the model. -/
def jsStrToNum (s : List Char) : Option ℚ :=
  let t := jsTrim s
  if t.isEmpty then some 0
  else
    let u := if t.head? = some '-' || t.head? = some '+' then t.drop 1 else t
    let ip := u.takeWhile isDigitChar
    let rest := u.drop ip.length
    if rest.isEmpty then
      if ip.isEmpty then none
      else if t.head? = some '-' then some (-(natOfDigits ip : ℚ))
      else some ((natOfDigits ip : ℚ))
    else if rest.head? = some '.' then
      let fp := rest.drop 1
      if fp.all isDigitChar && !(ip.isEmpty && fp.isEmpty) then
        if t.head? = some '-' then
          some (-((natOfDigits ip : ℚ) + (natOfDigits fp : ℚ) / (10 : ℚ) ^ fp.length))
        else some ((natOfDigits ip : ℚ) + (natOfDigits fp : ℚ) / (10 : ℚ) ^ fp.length)
      else none
    else none

/-- Model of JS `parseFloat(string)`: longest numeric prefix after leading
whitespace; `none` stands for `NaN`.  Exponents are outside the model. -/
def jsParseFloat (s : List Char) : Option ℚ :=
  let t := s.dropWhile jsWs
  let u := if t.head? = some '-' || t.head? = some '+' then t.drop 1 else t
  let ip := u.takeWhile isDigitChar
  let rest := u.drop ip.length
  let fp := if rest.head? = some '.' then (rest.drop 1).takeWhile isDigitChar else []
  if ip.isEmpty && fp.isEmpty then none
  else if t.head? = some '-' then
    some (-((natOfDigits ip : ℚ) + (natOfDigits fp : ℚ) / (10 : ℚ) ^ fp.length))
  else some ((natOfDigits ip : ℚ) + (natOfDigits fp : ℚ) / (10 : ℚ) ^ fp.length)

/-- JS `Number` applied to a possibly-undefined value: `Number(undefined)` is
`NaN`. -/
def jsNumOfOpt (o : Option (List Char)) : Option ℚ :=
  match o with
  | none => none
  | some s => jsStrToNum s

/-- JS `parseFloat` applied to a possibly-undefined value. -/
def jsParseFloatOfOpt (o : Option (List Char)) : Option ℚ :=
  match o with
  | none => none
  | some s => jsParseFloat s

/-- The class `[0-9,]` of the total-results regex. -/
def digitComma (c : Char) : Bool := isDigitChar c || c = ','

/-- The literal ` results` of the total-results regex. -/
def resultsLit : List Char := [' ', 'r', 'e', 's', 'u', 'l', 't', 's']

/-- Model of `resultsStr.match(/([0-9,]+) results$/)`: the match must end at
the end of input, so the string must end with ` results` immediately preceded
by a nonempty run of digits/commas; the captured group is the maximal such
trailing run (the leftmost match start yields the longest group). -/
def totalResultsMatch (s : List Char) : Option (List Char) :=
  if resultsLit.isSuffixOf s then
    let core := dropLastN s resultsLit.length
    let run := (core.reverse.takeWhile digitComma).reverse
    if run.isEmpty then none else some run
  else none

/-- Embedding of the `totalResults` computation of `searchAudible`
(`src/search-audible.ts` lines 204–205):
`totalResultsMatch ? Number(totalResultsMatch[1]) : 0`.  The result is the JS
number (`none` = `NaN`). -/
def totalResultsOf (resultsStr : List Char) : Option ℚ :=
  match totalResultsMatch resultsStr with
  | some g => jsStrToNum g
  | none => some 0

/-- NFD decomposition table for common precomposed Latin letters (base letter,
combining mark), modelling `String.prototype.normalize("NFD")` on the letters
the source's author names can contain; characters not in the table are left
undecomposed. -/
def nfdTable : List (Char × Char × Char) :=
  [('À', 'A', '̀'), ('Á', 'A', '́'), ('Â', 'A', '̂'),
   ('Ã', 'A', '̃'), ('Ä', 'A', '̈'), ('Å', 'A', '̊'),
   ('Ç', 'C', '̧'), ('È', 'E', '̀'), ('É', 'E', '́'),
   ('Ê', 'E', '̂'), ('Ë', 'E', '̈'), ('Ì', 'I', '̀'),
   ('Í', 'I', '́'), ('Î', 'I', '̂'), ('Ï', 'I', '̈'),
   ('Ñ', 'N', '̃'), ('Ò', 'O', '̀'), ('Ó', 'O', '́'),
   ('Ô', 'O', '̂'), ('Õ', 'O', '̃'), ('Ö', 'O', '̈'),
   ('Ù', 'U', '̀'), ('Ú', 'U', '́'), ('Û', 'U', '̂'),
   ('Ü', 'U', '̈'), ('Ý', 'Y', '́'),
   ('à', 'a', '̀'), ('á', 'a', '́'), ('â', 'a', '̂'),
   ('ã', 'a', '̃'), ('ä', 'a', '̈'), ('å', 'a', '̊'),
   ('ç', 'c', '̧'), ('è', 'e', '̀'), ('é', 'e', '́'),
   ('ê', 'e', '̂'), ('ë', 'e', '̈'), ('ì', 'i', '̀'),
   ('í', 'i', '́'), ('î', 'i', '̂'), ('ï', 'i', '̈'),
   ('ñ', 'n', '̃'), ('ò', 'o', '̀'), ('ó', 'o', '́'),
   ('ô', 'o', '̂'), ('õ', 'o', '̃'), ('ö', 'o', '̈'),
   ('ù', 'u', '̀'), ('ú', 'u', '́'), ('û', 'u', '̂'),
   ('ü', 'u', '̈'), ('ý', 'y', '́'), ('ÿ', 'y', '̈')]

def nfdChar (c : Char) : List Char :=
  match nfdTable.find? (fun e => e.1 = c) with
  | some e => [e.2.1, e.2.2]
  | none => [c]

/-- The combining-mark range `[̀-ͯ]` removed by `stripDiacretics`. -/
def isCombiningMark (c : Char) : Bool := 768 ≤ c.toNat && c.toNat ≤ 879

/-- Embedding of `stripDiacretics` from `src/utils/string.js`:
`str.normalize("NFD").replace(/[̀-ͯ]/g, "")`. -/
def stripDiacretics (l : List Char) : List Char :=
  ((l.map nfdChar).flatten).filter (fun c => !isCombiningMark c)

/-- One-pass scan underlying `replace(/\W+/g, " ")` (`removeNonWordChars`):
every maximal run of non-word characters becomes a single space. -/
def removeNonWordAux : Bool → List Char → List Char
  | _, [] => []
  | inRun, c :: rest =>
    if isWordChar c then c :: removeNonWordAux false rest
    else if inRun then removeNonWordAux true rest
    else ' ' :: removeNonWordAux true rest

/-- Embedding of `removeNonWordChars` from `src/utils/string.js`. -/
def removeNonWordChars (l : List Char) : List Char := removeNonWordAux false l

/-- Embedding of `removeSpaces` from `src/utils/string.js`:
`str.replace(/\s/g, "")`. -/
def removeSpaces (l : List Char) : List Char := l.filter (fun c => !jsWs c)

/-- Embedding of `simplify` from `src/utils/string.js`:
`removeSpaces(removeNonWordChars(stripDiacretics(str).toLowerCase()))`. -/
def simplify (l : List Char) : List Char :=
  removeSpaces (removeNonWordChars (toLowerL (stripDiacretics l)))

/-- Model of `String.prototype.includes`: substring containment. -/
def jsIncludes : List Char → List Char → Bool
  | [], t => t.isEmpty
  | s@(_ :: rest), t => t.isPrefixOf s || jsIncludes rest t

/-- Embedding of `fuzzyMatch` from `src/utils/string.js` (the JS default for
`checkIncludes` is `false`; here the flag is always explicit). -/
def fuzzyMatch (str1 str2 : List Char) (checkIncludes : Bool) : Bool :=
  let simpleStr1 := simplify str1
  let simpleStr2 := simplify str2
  (simpleStr1 == simpleStr2) ||
    (checkIncludes &&
      (jsIncludes simpleStr1 simpleStr2 || jsIncludes simpleStr2 simpleStr1))

/-- A row of the static ISO-639 language table (`src/data/iso-language-codes`,
a generated data file not included under `src/`; the table is therefore a
parameter of the lookup functions below). -/
structure LangRow where
  lname : List Char
  nativeName : List Char
  iso639_1 : List Char
  iso639_2_T : List Char
  iso639_2_B : List Char
  iso639_3 : List Char
deriving DecidableEq

/-- The `BookLanguage` record of `src/types.ts`. -/
structure BookLanguage where
  lname : List Char
  iso639_1 : List Char
  iso639_2_T : List Char
  iso639_2_B : List Char
  iso639_3 : List Char
deriving DecidableEq

/-- The record construction shared by both lookup functions in
`src/utils/language.ts`: all five fields copied from the matched row. -/
def rowToBookLanguage (m : LangRow) : BookLanguage :=
  ⟨m.lname, m.iso639_1, m.iso639_2_T, m.iso639_2_B, m.iso639_3⟩

/-- Embedding of `getLanguageByName` from `src/utils/language.ts`. -/
def getLanguageByName (languages : List LangRow) (name : List Char) :
    Option BookLanguage :=
  if name.isEmpty then none
  else
    match languages.find? (fun l =>
        toLowerL l.lname == toLowerL name || toLowerL l.nativeName == toLowerL name) with
    | some m => some (rowToBookLanguage m)
    | none => none

/-- The three-stage row search of `parseLanguage` from `src/utils/language.ts`
(2-letter code, then 3-letter code — the source tests `iso639_2_B` twice,
reproduced here — then name / native name). -/
def parseLanguageMatch (languages : List LangRow) (lang : List Char) :
    Option LangRow :=
  let m1 := if lang.length = 2 then
      languages.find? (fun l => l.iso639_1 == toLowerL lang)
    else none
  let m2 := match m1 with
    | some m => some m
    | none =>
      if lang.length = 3 then
        languages.find? (fun l =>
          l.iso639_2_T == toLowerL lang || l.iso639_2_B == toLowerL lang ||
          l.iso639_2_B == toLowerL lang)
      else none
  match m2 with
  | some m => some m
  | none =>
    languages.find? (fun l =>
      toLowerL l.lname == toLowerL lang || toLowerL l.nativeName == toLowerL lang)

/-- Embedding of `parseLanguage` from `src/utils/language.ts`. -/
def parseLanguage (languages : List LangRow) (lang : List Char) :
    Option BookLanguage :=
  if lang.isEmpty then none
  else
    match parseLanguageMatch languages lang with
    | some m => some (rowToBookLanguage m)
    | none => none

/-- A sample table row used only to witness the language theorem. -/
def englishRow : LangRow :=
  ⟨strL "English", strL "English", strL "en", strL "eng", strL "eng", strL "eng"⟩

/-- An anchor element as the search extractor sees it: text content and an
optional `href` attribute. -/
structure Anchor where
  text : List Char
  href : Option (List Char)
deriving DecidableEq

/-- The `Creator` record of `src/types.ts`. -/
structure Creator where
  cname : List Char
  url : Option (List Char)
  id : Option (List Char)
  bio : Option (List Char)
  imageUrl : Option (List Char)
  thumbnailImageUrl : Option (List Char)
deriving DecidableEq

/-- Embedding of one iteration of the author loop in `searchAudible`
(`src/search-audible.ts` lines 260–273); `resolve` stands for
`h => new URL(h, baseUrl).href`. -/
def mkSearchAuthor (resolve : List Char → List Char) (a : Anchor) : Creator :=
  { cname := jsTrim a.text
    url := a.href.map (fun h => cleanUrl (resolve h))
    id := none, bio := none, imageUrl := none, thumbnailImageUrl := none }

/-- Embedding of one iteration of the narrator loop in `searchAudible`
(`src/search-audible.ts` lines 275–290) — it iterates the same
`.authorLabel a` anchors, applying `cleanNarratorUrl` instead of `cleanUrl`. -/
def mkSearchNarrator (resolve : List Char → List Char) (a : Anchor) : Creator :=
  { cname := jsTrim a.text
    url := a.href.map (fun h => cleanNarratorUrl (resolve h))
    id := none, bio := none, imageUrl := none, thumbnailImageUrl := none }

def extractSearchAuthors (resolve : List Char → List Char) (anchors : List Anchor) :
    List Creator :=
  anchors.map (mkSearchAuthor resolve)

def extractSearchNarrators (resolve : List Char → List Char) (anchors : List Anchor) :
    List Creator :=
  anchors.map (mkSearchNarrator resolve)

/-- The `Series` record of `src/types.ts` (`part` is a JS number). -/
structure Series where
  sname : List Char
  url : Option (List Char)
  part : Option ℚ
deriving DecidableEq

/-- Model of `String.prototype.replace(pattern, "")` for a plain string
pattern: only the first occurrence is removed. -/
def replaceFirstStr : List Char → List Char → List Char
  | [], _ => []
  | c :: rest, pat =>
    if pat.isPrefixOf (c :: rest) then (c :: rest).drop pat.length
    else c :: replaceFirstStr rest pat

/-- The literal `Book` tested by `seriesStr.includes("Book")`. -/
def bookPat : List Char := ['B', 'o', 'o', 'k']

/-- The literal `Book ` removed by `seriesStr.replace("Book ", "")`. -/
def bookSpacePat : List Char := ['B', 'o', 'o', 'k', ' ']

/-- `series[j].part = v` on a JS array: set `part` on the `j`-th entry. -/
def setPartAt : List Series → Nat → ℚ → List Series
  | [], _, _ => []
  | s :: rest, 0, v => { s with part := some v } :: rest
  | s :: rest, Nat.succ j, v => s :: setPartAt rest j v

/-- `seriesArr[i - 1]` under JS indexing: `undefined` when `i = 0`. -/
def prevTok (seriesArr : List (List Char)) (i : Nat) : Option (List Char) :=
  if i = 0 then none else seriesArr[i - 1]?

/-- Embedding of the body of the series-attribution loop shared by
`searchAudible` (`src/search-audible.ts` lines 320–332) and `getAudibleBook`:
if the `i`-th token contains `Book`, parse `Number(token.replace("Book ", ""))`;
when that number is truthy, set it as `part` on the first series candidate
whose name strictly equals the preceding token. -/
def seriesStep (seriesArr : List (List Char)) (series : List Series) (i : Nat) :
    List Series :=
  match seriesArr[i]? with
  | none => series
  | some seriesStr =>
    if jsIncludes seriesStr bookPat then
      match jsStrToNum (replaceFirstStr seriesStr bookSpacePat) with
      | none => series
      | some v =>
        if v = 0 then series
        else
          match prevTok seriesArr i with
          | none => series
          | some p =>
            match series.findIdx? (fun item : Series => item.sname == p) with
            | none => series
            | some j => setPartAt series j v
    else series

/-- Embedding of the whole `seriesArr.forEach(...)` attribution loop. -/
def attachSeriesParts (seriesArr : List (List Char)) (series : List Series) :
    List Series :=
  (List.range seriesArr.length).foldl (fun st i => seriesStep seriesArr st i) series

/-- The nested `aggregateRating` object of an `Audiobook` linked-data block
(field values as raw JSON strings; either may be absent). -/
structure AggRating where
  ratingValue : Option (List Char)
  ratingCount : Option (List Char)
deriving DecidableEq

/-- The nested `offers` object of an `Audiobook` linked-data block. -/
structure Offers where
  lowPrice : Option (List Char)
  highPrice : Option (List Char)
  priceCurrency : Option (List Char)
deriving DecidableEq

/-- The `item` of a `BreadcrumbList` entry (`name` and `@id`). -/
structure BItem where
  itemName : Option (List Char)
  atId : Option (List Char)
deriving DecidableEq

/-- One entry of a `BreadcrumbList`'s `itemListElement`; its `item` may be
absent. -/
structure BreadcrumbEntry where
  item : Option BItem
deriving DecidableEq

/-- A parsed linked-data block as a JS object: a kind tag plus every property
the extractor reads, each possibly absent.  (`jname` models the JSON `name`
property.) -/
structure LdJson where
  atType : List Char
  jname : Option (List Char)
  description : Option (List Char)
  url : Option (List Char)
  image : Option (List Char)
  publisher : Option (List Char)
  inLanguage : Option (List Char)
  datePublished : Option (List Char)
  abridged : Option (List Char)
  duration : Option (List Char)
  productID : Option (List Char)
  sku : Option (List Char)
  aggregateRating : Option AggRating
  offers : Option Offers
  itemListElement : Option (List (Option BreadcrumbEntry))
deriving DecidableEq

/-- A block with no properties set, for building literals. -/
def emptyLd : LdJson :=
  ⟨[], none, none, none, none, none, none, none, none, none, none, none, none, none, none⟩

/-- `ldJsonList.find(jsonItem => jsonItem["@type"] === kind)`. -/
def ldFind (ld : List LdJson) (kind : List Char) : Option LdJson :=
  ld.find? (fun j => j.atType == kind)

/-- The `Genre` record (its `name` comes from a cast that can be absent at
runtime). -/
structure Genre where
  gname : Option (List Char)
  gurl : List Char
deriving DecidableEq

/-- The `Rating` record; `none` components stand for `NaN`. -/
structure Rating where
  value : Option ℚ
  count : Option ℚ
deriving DecidableEq

/-- The `Price` record; `none` components stand for `NaN`. -/
structure Price where
  low : Option ℚ
  high : Option ℚ
  currency : Option (List Char)
deriving DecidableEq

/-- The `Book` record of `src/types.ts`; `datePublished` keeps the raw date
string (`Date` construction is outside the model). -/
structure Book where
  url : Option (List Char)
  authors : List Creator
  narrators : List Creator
  series : Option (List Series)
  copyright : Option (List Char)
  copyrightYear : Option (List Char)
  asin : Option (List Char)
  sku : Option (List Char)
  title : Option (List Char)
  cleanTitle : Option (List Char)
  publisher : Option (List Char)
  language : Option BookLanguage
  description : Option (List Char)
  datePublished : Option (List Char)
  rating : Option Rating
  price : Option Price
  isAbridged : Option Bool
  duration : Option ℚ
  coverUrl : Option (List Char)
  genres : Option (List Genre)
deriving DecidableEq

/-- Embedding of the genre loop over `itemListElement.slice(1)` in
`getAudibleBook`: a `null` entry is skipped (`if (breadcrumb)`), but an entry
whose `item` is absent makes `item.name` throw (modelled as `error`). -/
def buildGenres (baseUrl : List Char) : List (Option BreadcrumbEntry) → Except Unit (List Genre)
  | [] => Except.ok []
  | none :: rest => buildGenres baseUrl rest
  | some e :: rest =>
    match e.item with
    | none => Except.error ()
    | some it =>
      match buildGenres baseUrl rest with
      | Except.error u => Except.error u
      | Except.ok gs =>
        Except.ok (⟨it.itemName, baseUrl ++ (it.atId.getD (strL "undefined"))⟩ :: gs)

/-- Model of `durationStr.match(/\d+(?=H)/)`: the first maximal digit run
immediately followed by the marker character (positions inside a failing run
also fail, so a per-position scan is equivalent to the regex). -/
def firstNumBefore (mark : Char) : List Char → Option Nat
  | [] => none
  | c :: rest =>
    if isDigitChar c &&
        ((c :: rest).drop ((c :: rest).takeWhile isDigitChar).length).head? = some mark
    then some (natOfDigits ((c :: rest).takeWhile isDigitChar))
    else firstNumBefore mark rest

/-- `SECONDS_IN_HOUR` from `src/utils/time.js`. -/
def SECONDS_IN_HOUR : ℚ := 3600

/-- `SECONDS_IN_MINUTE` from `src/utils/time.js`. -/
def SECONDS_IN_MINUTE : ℚ := 60

/-- Embedding of the `BreadcrumbList` section of `getAudibleBook` (current TS
version, `src/unnamed/part_002`): absence of the block leaves the book
unchanged, a block without `itemListElement` throws (the cast is followed by
`.slice`). -/
def applyBreadcrumb (baseUrl : List Char) (ld : List LdJson) (book : Book) :
    Except Unit Book :=
  match ldFind ld (strL "BreadcrumbList") with
  | none => Except.ok book
  | some bc =>
    match bc.itemListElement with
    | none => Except.error ()
    | some entries =>
      match buildGenres baseUrl (entries.drop 1) with
      | Except.error u => Except.error u
      | Except.ok gs => Except.ok { book with genres := some gs }

/-- Embedding of the `Product` section of `getAudibleBook` (current TS
version): guarded by `if (productJson)`. -/
def applyProduct (ld : List LdJson) (book : Book) : Book :=
  match ldFind ld (strL "Product") with
  | none => book
  | some p => { book with asin := p.productID, sku := p.sku }

/-- Embedding of the `Audiobook` section of `getAudibleBook` (current TS
version): guarded by `if (bookJson)`; `cleanDescr` stands for the
`cleanDescription` normalizer (applied to truthy descriptions only, exactly as
`cleanDescription` itself short-circuits falsy input to `null`), and the
language table is the same parameter as in the language resolver. -/
def applyAudiobook (table : List LangRow) (cleanDescr : List Char → List Char)
    (ld : List LdJson) (book : Book) : Book :=
  match ldFind ld (strL "Audiobook") with
  | none => book
  | some bj =>
    { book with
      title := bj.jname
      cleanTitle := bj.jname.map cleanTitle
      publisher := bj.publisher
      language :=
        match bj.inLanguage with
        | none => book.language
        | some s =>
          match getLanguageByName table s with
          | some l => some l
          | none => book.language
      description :=
        match bj.description with
        | none => none
        | some dsc => if dsc.isEmpty then none else some (cleanDescr dsc)
      datePublished := bj.datePublished
      rating :=
        match bj.aggregateRating with
        | none => book.rating
        | some r => some ⟨jsParseFloatOfOpt r.ratingValue, jsNumOfOpt r.ratingCount⟩
      price :=
        match bj.offers with
        | none => book.price
        | some o => some ⟨jsNumOfOpt o.lowPrice, jsNumOfOpt o.highPrice, o.priceCurrency⟩
      isAbridged := some (bj.abridged == some (strL "true"))
      duration :=
        match bj.duration with
        | none => book.duration
        | some dstr =>
          if dstr.isEmpty then book.duration
          else some (((firstNumBefore 'H' dstr).getD 0 : ℚ) * SECONDS_IN_HOUR +
            ((firstNumBefore 'M' dstr).getD 0 : ℚ) * SECONDS_IN_MINUTE)
      coverUrl := bj.image }

/-- Embedding of the linked-data phase of `getAudibleBook` (current TS
version): the three block kinds are selected and applied independently, in
source order, over the book record already populated from DOM-only fields. -/
def applyLdJson (table : List LangRow) (cleanDescr : List Char → List Char)
    (baseUrl : List Char) (book : Book) (ld : List LdJson) : Except Unit Book :=
  match applyBreadcrumb baseUrl ld book with
  | Except.error u => Except.error u
  | Except.ok b1 => Except.ok (applyAudiobook table cleanDescr ld (applyProduct ld b1))

/-- A sample DOM-only book used to witness the detail-extractor theorem. -/
def domOnlyBook : Book :=
  { url := some (strL "https://audible.com/pd/B0TEST")
    authors := [⟨strL "A. Author", none, none, none, none, none⟩]
    narrators := []
    series := some [⟨strL "A Series", none, none⟩]
    copyright := some (strL "©2020 Tester")
    copyrightYear := some (strL "2020")
    asin := none, sku := none, title := none, cleanTitle := none, publisher := none
    language := none, description := none, datePublished := none, rating := none
    price := none, isAbridged := none, duration := none, coverUrl := none, genres := none }

/-- The author-profile page as `parseAuthorInfo` sees it: the thumbnail
element's `src` and the parsed linked-data blocks. -/
structure AuthorPage where
  thumbnailSrc : Option (List Char)
  ldJsonList : List LdJson
deriving DecidableEq

/-- `url.split("/").pop()`: the segment after the last slash. -/
def lastSegment (u : List Char) : List Char :=
  u.foldl (fun acc c => if c = '/' then [] else acc ++ [c]) []

/-- JS `x || fallback` on a string field whose target is required: an absent
or empty value falls back. -/
def jsOrStrReq (v : Option (List Char)) (fallback : List Char) : List Char :=
  match v with
  | some s => if s.isEmpty then fallback else s
  | none => fallback

/-- JS `x || fallback` on a string field whose target is optional. -/
def jsOrStrOpt (v fallback : Option (List Char)) : Option (List Char) :=
  match v with
  | some s => if s.isEmpty then fallback else some s
  | none => fallback

/-- The `Person` section of `parseAuthorInfo` (current TS version): when the
block is present `imageUrl` is overwritten with its `image` property, absent
or not. -/
def applyPersonBlock (pg : AuthorPage) (a : Creator) : Creator :=
  match ldFind pg.ldJsonList (strL "Person") with
  | none => a
  | some p => { a with imageUrl := p.image }

/-- Embedding of the body of `parseAuthorInfo` (current TS version,
`src/unnamed/part_002` lines 356–414): thumbnail first, then the `MusicGroup`
guard (name and bio with `||` fallbacks; `id` from
`(authorJson.url as string).split("/").pop()`, which **throws** when the
block's `url` is absent — modelled as `error`), then the `Person` guard. -/
def parseAuthorInfoCore (author : Creator) (pg : AuthorPage) : Except Unit Creator :=
  let a1 : Creator := { author with thumbnailImageUrl := pg.thumbnailSrc }
  match ldFind pg.ldJsonList (strL "MusicGroup") with
  | none => Except.ok (applyPersonBlock pg a1)
  | some mg =>
    match mg.url with
    | none => Except.error ()
    | some u =>
      Except.ok (applyPersonBlock pg
        { a1 with
          cname := jsOrStrReq mg.jname a1.cname
          bio := jsOrStrOpt mg.description a1.bio
          id := some (lastSegment u)
          url := if u.isEmpty then a1.url else some u })

/-- Embedding of `parseAuthorInfo` itself: a falsy `author.url` returns the
input, and the surrounding `try`/`catch` returns the input on any throw. -/
def parseAuthorInfo (author : Creator) (pg : AuthorPage) : Creator :=
  match author.url with
  | none => author
  | some u0 =>
    if u0.isEmpty then author
    else
      match parseAuthorInfoCore author pg with
      | Except.ok a => a
      | Except.error _ => author

/-- The MusicGroup block of the author-enrichment counterexample: name and
bio present, `url` absent. -/
def c6MgBlock : LdJson :=
  { emptyLd with
    atType := strL "MusicGroup"
    jname := some (strL "New Name")
    description := some (strL "A bio") }

/-- The Person block of the author-enrichment counterexample. -/
def c6PersonBlock : LdJson :=
  { emptyLd with atType := strL "Person", image := some (strL "img.jpg") }

/-- The input Creator of the author-enrichment counterexample. -/
def c6Author : Creator :=
  ⟨strL "Old Name", some (strL "https://a/author/X"), none, none, none, none⟩

/-- The author-profile page of the counterexample: thumbnail present, both
blocks present, but the MusicGroup block lacks `url`. -/
def c6Page : AuthorPage := ⟨some (strL "thumb.jpg"), [c6MgBlock, c6PersonBlock]⟩

example : cleanTitle (strL "Foo, Book 1") = strL "Foo" := by decide

example : cleanTitle (strL "Foo (Unabridged)") = strL "Foo undefined" := by decide

example : cleanTitle (strL "A,  Book 1") = strL "A, Book 1" := by decide

example : cleanTitle (strL "A, Book 1") = strL "A" := by decide

lemma dropWhile_head_not (p : Char → Bool) :
    ∀ (l : List Char) (c : Char), (l.dropWhile p).head? = some c → p c = false := by
  intro l
  induction l with
  | nil => intro c h; simp [List.dropWhile] at h
  | cons a r ih =>
    intro c h
    rw [List.dropWhile_cons] at h
    by_cases hp : p a = true
    · exact ih c (by simpa [hp] using h)
    · simp [hp] at h
      rw [← h]
      exact Bool.eq_false_iff.mpr hp

lemma dropWhile_getLast (p : Char → Bool) :
    ∀ l : List Char, l.dropWhile p ≠ [] → (l.dropWhile p).getLast? = l.getLast? := by
  intro l
  induction l with
  | nil => intro h; simp [List.dropWhile] at h
  | cons a r ih =>
    intro h
    rw [List.dropWhile_cons] at h ⊢
    by_cases hp : p a = true
    · simp only [hp, if_true] at h ⊢
      have hr : r ≠ [] := by
        intro hr0; subst hr0; simp [List.dropWhile] at h
      cases r with
      | nil => exact absurd rfl hr
      | cons b t => rw [ih h, List.getLast?_cons_cons]
    · simp [hp]

lemma getLast?_cons_ne_none (a : Char) : ∀ l : List Char, (a :: l).getLast? ≠ none := by
  intro l
  induction l generalizing a with
  | nil => simp
  | cons b t ih => rw [List.getLast?_cons_cons]; exact ih b

lemma getLast?_cons_of_ne_nil (a : Char) (l : List Char) (h : l ≠ []) :
    (a :: l).getLast? = l.getLast? := by
  cases l with
  | nil => exact absurd rfl h
  | cons b t => exact List.getLast?_cons_cons

lemma jsTrim_head_not (x : List Char) (c : Char) (h : (jsTrim x).head? = some c) :
    jsWs c = false := by
  unfold jsTrim at h
  rw [List.head?_reverse] at h
  have hne : (x.dropWhile jsWs).reverse.dropWhile jsWs ≠ [] := by
    intro h0; rw [h0] at h; simp at h
  rw [dropWhile_getLast jsWs _ hne, List.getLast?_reverse] at h
  exact dropWhile_head_not jsWs x c h

lemma jsTrim_getLast_not (x : List Char) (c : Char) (h : (jsTrim x).getLast? = some c) :
    jsWs c = false := by
  unfold jsTrim at h
  rw [List.getLast?_reverse] at h
  exact dropWhile_head_not jsWs _ c h

lemma jsTrim_noop (z : List Char)
    (h1 : ∀ c, z.head? = some c → jsWs c = false)
    (h2 : ∀ c, z.getLast? = some c → jsWs c = false) : jsTrim z = z := by
  cases z with
  | nil => rfl
  | cons a r =>
    have ha : jsWs a = false := h1 a rfl
    unfold jsTrim
    rw [List.dropWhile_cons, ha]
    simp only [Bool.false_eq_true, if_false]
    cases hrev : (a :: r).reverse with
    | nil => exact absurd hrev (by simp)
    | cons d t =>
      have hd : (a :: r).getLast? = some d := by
        rw [← List.head?_reverse, hrev]; rfl
      have hwd : jsWs d = false := h2 d hd
      rw [List.dropWhile_cons, hwd]
      simp only [Bool.false_eq_true, if_false]
      rw [← hrev, List.reverse_reverse]

lemma collapseWsAux_true_head :
    ∀ (l : List Char) (c : Char), (collapseWsAux true l).head? = some c → jsWs c = false := by
  intro l
  induction l with
  | nil => intro c h; simp [collapseWsAux] at h
  | cons a r ih =>
    intro c h
    cases r with
    | nil =>
      by_cases hw : jsWs a = true
      · simp [collapseWsAux, hw] at h
      · simp [collapseWsAux, hw] at h
        rw [← h]
        simpa using hw
    | cons d t =>
      by_cases hw : jsWs a = true
      · rw [show collapseWsAux true (a :: d :: t) = collapseWsAux true (d :: t) from by
          simp [collapseWsAux, hw]] at h
        exact ih c h
      · rw [show collapseWsAux true (a :: d :: t) = a :: collapseWsAux false (d :: t) from by
          simp [collapseWsAux, hw]] at h
        have ha : a = c := by simpa using h
        rw [← ha]
        simpa using hw

lemma collapseWs_head_of_not (d : Char) (r : List Char) (h : jsWs d = false) :
    (collapseWsAux false (d :: r)).head? = some d := by
  cases r with
  | nil => simp [collapseWsAux, h]
  | cons b t => simp [collapseWsAux, h]

lemma noWsPairB_cons (c : Char) (out : List Char)
    (h1 : noWsPairB out = true)
    (h2 : ∀ d, out.head? = some d → (jsWs c && jsWs d) = false) :
    noWsPairB (c :: out) = true := by
  cases out with
  | nil => simp [noWsPairB]
  | cons d t =>
    rw [noWsPairB]
    simp only [Bool.and_eq_true]
    exact ⟨by simp [h2 d rfl], h1⟩

lemma collapseWsAux_noWsPair : ∀ (flag : Bool) (l : List Char),
    noWsPairB (collapseWsAux flag l) = true := by
  intro flag l
  induction l generalizing flag with
  | nil => simp [collapseWsAux, noWsPairB]
  | cons a r ih =>
    cases r with
    | nil =>
      by_cases hw : jsWs a = true <;> cases flag <;> simp [collapseWsAux, hw, noWsPairB]
    | cons d t =>
      by_cases hw : jsWs a = true
      · cases flag with
        | true =>
          rw [show collapseWsAux true (a :: d :: t) = collapseWsAux true (d :: t) from by
            simp [collapseWsAux, hw]]
          exact ih true
        | false =>
          by_cases hd : jsWs d = true
          · rw [show collapseWsAux false (a :: d :: t) = ' ' :: collapseWsAux true (d :: t) from by
              simp [collapseWsAux, hw, hd]]
            refine noWsPairB_cons _ _ (ih true) ?_
            intro e he
            have he' := collapseWsAux_true_head (d :: t) e he
            simp [he']
          · have hd' : jsWs d = false := by simpa using hd
            rw [show collapseWsAux false (a :: d :: t) = a :: collapseWsAux false (d :: t) from by
              simp [collapseWsAux, hw, hd']]
            refine noWsPairB_cons _ _ (ih false) ?_
            intro e he
            rw [collapseWs_head_of_not d t hd'] at he
            have hed : e = d := by simpa using he.symm
            simp [hed, hd']
      · have hw' : jsWs a = false := by simpa using hw
        rw [show collapseWsAux flag (a :: d :: t) = a :: collapseWsAux false (d :: t) from by
          cases flag <;> simp [collapseWsAux, hw']]
        refine noWsPairB_cons _ _ (ih false) ?_
        intro e _
        simp [hw']

lemma noWsPairB_tail (a : Char) (r : List Char) (h : noWsPairB (a :: r) = true) :
    noWsPairB r = true := by
  cases r with
  | nil => simp [noWsPairB]
  | cons b t =>
    rw [noWsPairB] at h
    simp only [Bool.and_eq_true] at h
    exact h.2

lemma collapseWsAux_false_of_noWsPair :
    ∀ l : List Char, noWsPairB l = true → collapseWsAux false l = l := by
  intro l
  induction l with
  | nil => intro _; rfl
  | cons a r ih =>
    intro h
    cases r with
    | nil => by_cases hw : jsWs a = true <;> simp [collapseWsAux, hw]
    | cons b t =>
      have hrest : noWsPairB (b :: t) = true := noWsPairB_tail a _ h
      by_cases hw : jsWs a = true
      · have hb : jsWs b = false := by
          rw [noWsPairB] at h
          simp only [Bool.and_eq_true] at h
          have h1 := h.1
          simp [hw] at h1
          simpa using h1
        rw [show collapseWsAux false (a :: b :: t) = a :: collapseWsAux false (b :: t) from by
          simp [collapseWsAux, hw, hb]]
        rw [ih hrest]
      · have hw' : jsWs a = false := by simpa using hw
        rw [show collapseWsAux false (a :: b :: t) = a :: collapseWsAux false (b :: t) from by
          simp [collapseWsAux, hw']]
        rw [ih hrest]

lemma collapseWsAux_getLast :
    ∀ (flag : Bool) (l : List Char) (c : Char),
      l.getLast? = some c → jsWs c = false → (collapseWsAux flag l).getLast? = some c := by
  intro flag l
  induction l generalizing flag with
  | nil => intro c h _; simp at h
  | cons a r ih =>
    intro c h hc
    cases r with
    | nil =>
      have hca : a = c := by simpa using h
      subst hca
      cases flag <;> simp [collapseWsAux, hc]
    | cons b t =>
      have hr : (b :: t).getLast? = some c := by rwa [List.getLast?_cons_cons] at h
      have hout : ∀ fl : Bool, (collapseWsAux fl (b :: t)).getLast? = some c :=
        fun fl => ih fl c hr hc
      have houtne : ∀ fl : Bool, collapseWsAux fl (b :: t) ≠ [] := by
        intro fl h0
        have hfl := hout fl
        rw [h0] at hfl
        simp at hfl
      by_cases hw : jsWs a = true
      · cases flag with
        | true =>
          rw [show collapseWsAux true (a :: b :: t) = collapseWsAux true (b :: t) from by
            simp [collapseWsAux, hw]]
          exact hout true
        | false =>
          by_cases hd : jsWs b = true
          · rw [show collapseWsAux false (a :: b :: t) = ' ' :: collapseWsAux true (b :: t) from by
              simp [collapseWsAux, hw, hd]]
            rw [getLast?_cons_of_ne_nil _ _ (houtne true)]
            exact hout true
          · have hd' : jsWs b = false := by simpa using hd
            rw [show collapseWsAux false (a :: b :: t) = a :: collapseWsAux false (b :: t) from by
              simp [collapseWsAux, hw, hd']]
            rw [getLast?_cons_of_ne_nil _ _ (houtne false)]
            exact hout false
      · have hw' : jsWs a = false := by simpa using hw
        rw [show collapseWsAux flag (a :: b :: t) = a :: collapseWsAux false (b :: t) from by
          cases flag <;> simp [collapseWsAux, hw']]
        rw [getLast?_cons_of_ne_nil _ _ (houtne false)]
        exact hout false

lemma collapseWs_fix (u : List Char) : collapseWs (collapseWs u) = collapseWs u :=
  collapseWsAux_false_of_noWsPair _ (collapseWsAux_noWsPair false u)

lemma jsTrim_collapseWs_jsTrim_fix (x : List Char) :
    jsTrim (collapseWs (jsTrim x)) = collapseWs (jsTrim x) := by
  cases hy : jsTrim x with
  | nil => rfl
  | cons c r =>
    have hc : jsWs c = false := jsTrim_head_not x c (by rw [hy]; rfl)
    refine jsTrim_noop _ ?h1 ?h2
    · intro e he
      rw [show collapseWs (c :: r) = collapseWsAux false (c :: r) from rfl,
        collapseWs_head_of_not c r hc] at he
      have : e = c := by simpa using he.symm
      rw [this]; exact hc
    · intro e he
      cases hd : (c :: r).getLast? with
      | none => exact absurd hd (getLast?_cons_ne_none c r)
      | some d =>
        have hwd : jsWs d = false := jsTrim_getLast_not x d (by rw [hy]; exact hd)
        rw [show collapseWs (c :: r) = collapseWsAux false (c :: r) from rfl,
          collapseWsAux_getLast false (c :: r) d hd hwd] at he
        have : e = d := by simpa using he.symm
        rw [this]; exact hwd

/-- Claim C3 (code bug): `cleanTitle` does strip the `, Book 1` suffix, but the
unabridged-marker replacement is called **without a replacement argument**
(`newTitle.replace(/\(?unabridged\)?$/i)` in `src/utils/string.js`), so
JavaScript substitutes the string `"undefined"` for the match:
`"Foo (Unabridged)"` evaluates to `"Foo undefined"`, not `"Foo"` as the claim
and the comment above the line intend. -/
theorem cleanTitle_unabridged_code_bug :
    cleanTitle (strL "Foo, Book 1") = strL "Foo" ∧
    cleanTitle (strL "Foo (Unabridged)") = strL "Foo undefined" ∧
    cleanTitle (strL "Foo (Unabridged)") ≠ strL "Foo" := by
  refine ⟨by decide, by decide, by decide⟩

/-- Claim C4 (counterexample): `cleanTitle` is not idempotent — on
`"A,  Book 1"` the first pass only collapses the double space, producing
`"A, Book 1"`, and a second pass then strips the newly exposed
`, Book 1` suffix. -/
theorem cleanTitle_not_idempotent :
    cleanTitle (cleanTitle (strL "A,  Book 1")) ≠ cleanTitle (strL "A,  Book 1") := by
  decide

/-- Claim C4 (amended): `cleanTitle` is idempotent on every input whose cleaned
form is a fixed point of both suffix replacements, i.e. whose cleaned form no
longer ends in a `, Book <token>` suffix or an unabridged marker. -/
theorem cleanTitle_idempotent_on_fixed (s : List Char)
    (hb : replaceBook (cleanTitle s) = cleanTitle s)
    (hu : replaceUnabr (cleanTitle s) = cleanTitle s) :
    cleanTitle (cleanTitle s) = cleanTitle s := by
  by_cases hs : s.isEmpty = true
  · have h0 : cleanTitle s = s := by rw [cleanTitle, if_pos hs]
    rw [h0, cleanTitle, if_pos hs]
  · have ht : cleanTitle s =
        collapseWs (jsTrim (replaceUnabr (jsTrim (replaceBook (jsTrim s))))) := by
      rw [cleanTitle, if_neg hs]
    have htfix : jsTrim (cleanTitle s) = cleanTitle s := by
      rw [ht]; exact jsTrim_collapseWs_jsTrim_fix _
    have hcfix : collapseWs (cleanTitle s) = cleanTitle s := by
      rw [ht]; exact collapseWs_fix _
    by_cases hts : (cleanTitle s).isEmpty = true
    · rw [cleanTitle, if_pos hts]
    · rw [cleanTitle, if_neg hts, htfix, hb, htfix, hu, htfix, hcfix]

/-- Witness for `cleanTitle_idempotent_on_fixed` at a concrete input. -/
theorem cleanTitle_idempotent_on_fixed_witness :
    cleanTitle (cleanTitle (strL "Harry Potter")) = cleanTitle (strL "Harry Potter") :=
  cleanTitle_idempotent_on_fixed (strL "Harry Potter") (by decide) (by decide)

lemma isPrefixOf_self_append (p ys : List Char) : p.isPrefixOf (p ++ ys) = true := by
  induction p with
  | nil => simp [List.isPrefixOf]
  | cons a t ih => simp [List.isPrefixOf, ih]

lemma refPrefix_split (preTail post' : List Char) (q : Char) (hq : q = '?' ∨ q = '&')
    (h : refPat.isPrefixOf (preTail ++ q :: post') = true) :
    refPat.isPrefixOf preTail = true := by
  match preTail with
  | [] => rcases hq with rfl | rfl <;> simp [refPat, List.isPrefixOf] at h
  | [a] => rcases hq with rfl | rfl <;> simp [refPat, List.isPrefixOf] at h
  | [a, b] => rcases hq with rfl | rfl <;> simp [refPat, List.isPrefixOf] at h
  | [a, b, c] => rcases hq with rfl | rfl <;> simp [refPat, List.isPrefixOf] at h
  | a :: b :: c :: d :: rest =>
    simp only [List.cons_append] at h
    simp [refPat, List.isPrefixOf] at h ⊢
    exact ⟨h.1, h.2.1, h.2.2.1, h.2.2.2⟩

lemma stripFromQuery_append (pre post : List Char) (hpre : '?' ∉ pre)
    (hpost : post.all dotOk = true) :
    stripFromQuery (pre ++ '?' :: post) = pre := by
  induction pre with
  | nil => simp [stripFromQuery, hpost]
  | cons c0 pt ih =>
    have hc : ¬ c0 = '?' := fun h0 => hpre (by simp [h0])
    have hpt : '?' ∉ pt := fun h0 => hpre (List.mem_cons_of_mem _ h0)
    show stripFromQuery (c0 :: (pt ++ '?' :: post)) = c0 :: pt
    simp only [stripFromQuery]
    rw [if_neg (by simp [hc])]
    rw [ih hpt]

lemma stripFromQuery_no_query (s : List Char) (h : '?' ∉ s) : stripFromQuery s = s := by
  induction s with
  | nil => rfl
  | cons c0 t ih =>
    have hc : ¬ c0 = '?' := fun h0 => h (by simp [h0])
    have ht : '?' ∉ t := fun h0 => h (List.mem_cons_of_mem _ h0)
    simp only [stripFromQuery]
    rw [if_neg (by simp [hc])]
    rw [ih ht]

lemma stripFromRef_append (pre post : List Char) (q : Char) (hq : q = '?' ∨ q = '&')
    (hpre : containsRefMarker pre = false) (hpost : post.all dotOk = true) :
    stripFromRef (pre ++ q :: refPat ++ post) = pre := by
  induction pre with
  | nil =>
    have h1 : refPat.isPrefixOf (refPat ++ post) = true := isPrefixOf_self_append _ _
    have h2 : ((refPat ++ post).drop 4).all dotOk = true := by
      rw [show (4 : Nat) = refPat.length from rfl, List.drop_left]
      exact hpost
    rcases hq with rfl | rfl <;> simp [stripFromRef, h1, h2]
  | cons c0 pt ih =>
    rw [containsRefMarker] at hpre
    simp only [Bool.or_eq_false_iff] at hpre
    show stripFromRef (c0 :: (pt ++ q :: refPat ++ post)) = c0 :: pt
    by_cases hc : c0 = '?' ∨ c0 = '&'
    · have hcb : (decide (c0 = '?') || decide (c0 = '&')) = true := by
        rcases hc with rfl | rfl <;> simp
      have h2 : refPat.isPrefixOf (pt ++ q :: refPat ++ post) = false := by
        cases hp : refPat.isPrefixOf (pt ++ q :: refPat ++ post) with
        | false => rfl
        | true =>
          exfalso
          have h3 : refPat.isPrefixOf pt = true :=
            refPrefix_split pt (refPat ++ post) q hq
              (by simpa [List.append_assoc] using hp)
          have h4 := hpre.1
          rw [hcb, Bool.true_and] at h4
          rw [h3] at h4
          simp at h4
      have hneg : ¬ (((decide (c0 = '?') || decide (c0 = '&')) &&
          refPat.isPrefixOf (pt ++ q :: refPat ++ post) &&
          ((pt ++ q :: refPat ++ post).drop 4).all dotOk) = true) := by
        intro hcond
        rw [h2] at hcond
        simp at hcond
      simp only [stripFromRef]
      rw [if_neg hneg]
      rw [ih hpre.2]
    · have hc1 : ¬ c0 = '?' := fun h0 => hc (Or.inl h0)
      have hc2 : ¬ c0 = '&' := fun h0 => hc (Or.inr h0)
      simp only [stripFromRef]
      rw [if_neg (by simp [hc1, hc2])]
      rw [ih hpre.2]

/-- Claim C5 (counterexample): the narrator URL cleaner does **not** preserve
query parameters that follow the `ref` parameter — the regex
`/[?&]ref=.*$/` erases everything from the ref marker to the end of the
string, so a parameter appearing after `ref` is dropped. -/
theorem cleanNarratorUrl_drops_following_params :
    cleanNarratorUrl (strL "https://x/a?ref=p&b=1") = strL "https://x/a" ∧
    cleanNarratorUrl (strL "https://x/a?ref=p&b=1") ≠ strL "https://x/a?b=1" := by
  refine ⟨by decide, by decide⟩

/-- Claim C5 (amended): for URL strings free of line terminators, the general
cleaner removes everything from the first `?` onward (and only trims when
there is no `?`); the narrator cleaner removes everything from the first
`?ref=` or `&ref=` marker onward, so parameters preceding the ref parameter
are preserved and parameters following it are removed. -/
theorem cleanUrl_and_cleanNarratorUrl_amended :
    (∀ pre post : List Char, '?' ∉ pre → post.all dotOk = true →
      cleanUrl (pre ++ '?' :: post) = jsTrim pre) ∧
    (∀ s : List Char, '?' ∉ s → cleanUrl s = jsTrim s) ∧
    (∀ (pre post : List Char) (q : Char), q = '?' ∨ q = '&' →
      containsRefMarker pre = false → post.all dotOk = true →
      cleanNarratorUrl (pre ++ q :: refPat ++ post) = jsTrim pre) := by
  refine ⟨?g1, ?g2, ?g3⟩
  · intro pre post h1 h2
    unfold cleanUrl
    rw [stripFromQuery_append pre post h1 h2]
  · intro s h
    unfold cleanUrl
    rw [stripFromQuery_no_query s h]
  · intro pre post q hq h1 h2
    unfold cleanNarratorUrl
    rw [stripFromRef_append pre post q hq h1 h2]

/-- Witness for `cleanUrl_and_cleanNarratorUrl_amended` at concrete inputs. -/
theorem cleanUrl_and_cleanNarratorUrl_amended_witness :
    cleanUrl (strL "https://x/a" ++ '?' :: strL "b=1") = jsTrim (strL "https://x/a") ∧
    cleanNarratorUrl (strL "https://x/a?b=1" ++ '&' :: refPat ++ strL "p&c=2") =
      jsTrim (strL "https://x/a?b=1") :=
  ⟨cleanUrl_and_cleanNarratorUrl_amended.1 (strL "https://x/a") (strL "b=1")
      (by decide) (by decide),
    cleanUrl_and_cleanNarratorUrl_amended.2.2 (strL "https://x/a?b=1") (strL "p&c=2") '&'
      (Or.inr rfl) (by decide) (by decide)⟩

lemma beq_list_comm (x y : List Char) : (x == y) = (y == x) := by
  by_cases h : x = y
  · rw [h]
  · have h1 : (x == y) = false := beq_eq_false_iff_ne.mpr h
    have h2 : (y == x) = false := beq_eq_false_iff_ne.mpr (Ne.symm h)
    rw [h1, h2]

/-- Claim C10: `fuzzyMatch` is symmetric in its two string arguments, for
either value of the containment flag — the equality test is symmetric and the
containment mode tests inclusion in both directions. -/
theorem fuzzyMatch_symm (a b : List Char) (f : Bool) :
    fuzzyMatch a b f = fuzzyMatch b a f := by
  show ((simplify a == simplify b) ||
      (f && (jsIncludes (simplify a) (simplify b) || jsIncludes (simplify b) (simplify a)))) =
    ((simplify b == simplify a) ||
      (f && (jsIncludes (simplify b) (simplify a) || jsIncludes (simplify a) (simplify b))))
  rw [beq_list_comm (simplify a) (simplify b),
    Bool.or_comm (jsIncludes (simplify a) (simplify b)) (jsIncludes (simplify b) (simplify a))]

/-- Claim C1 (code bug): the total-results regex `([0-9,]+) results$`
deliberately admits commas in the captured group, but the capture is passed to
`Number` without stripping them (unlike the rating count a few lines below,
which does `replace(/,/g, "")` first), so `"1,234 results"` produces `NaN`,
not `1234`.  Comma-free counts parse correctly, and a missing element or
pattern yields `0` without raising. -/
theorem totalResults_comma_is_nan :
    totalResultsOf (strL "1,234 results") = none ∧
    some (1234 : ℚ) ≠ totalResultsOf (strL "1,234 results") ∧
    totalResultsOf (strL "234 results") = some (234 : ℚ) ∧
    totalResultsOf (strL "Showing 1-20 of 234 results") = some (234 : ℚ) ∧
    totalResultsOf (strL "") = some 0 ∧
    totalResultsOf (strL "no matching text") = some 0 := by
  refine ⟨by decide, by decide, by decide, by decide, by decide, by decide⟩

lemma parseLanguageMatch_mem (languages : List LangRow) (lang : List Char)
    (m : LangRow) (h : parseLanguageMatch languages lang = some m) : m ∈ languages := by
  unfold parseLanguageMatch at h
  cases h1 : (if lang.length = 2 then
      languages.find? (fun l => l.iso639_1 == toLowerL lang)
    else none) with
  | some m1 =>
    rw [h1] at h
    simp at h
    by_cases hl : lang.length = 2
    · rw [if_pos hl] at h1
      rw [← h]
      exact List.mem_of_find?_eq_some h1
    · rw [if_neg hl] at h1
      exact absurd h1 (by simp)
  | none =>
    rw [h1] at h
    cases h2 : (if lang.length = 3 then
        languages.find? (fun l =>
          l.iso639_2_T == toLowerL lang || l.iso639_2_B == toLowerL lang ||
          l.iso639_2_B == toLowerL lang)
      else none) with
    | some m2 =>
      rw [h2] at h
      simp at h
      by_cases hl : lang.length = 3
      · rw [if_pos hl] at h2
        rw [← h]
        exact List.mem_of_find?_eq_some h2
      · rw [if_neg hl] at h2
        exact absurd h2 (by simp)
    | none =>
      rw [h2] at h
      simp at h
      exact List.mem_of_find?_eq_some h

/-- Claim C9: every non-`null` result of the language resolver — by either
entry point — is the record built by copying the name and all four ISO codes
out of a single row of the (parameterised) static language table. -/
theorem language_lookup_single_row (languages : List LangRow) (lang : List Char)
    (res : BookLanguage)
    (h : parseLanguage languages lang = some res ∨
      getLanguageByName languages lang = some res) :
    ∃ row ∈ languages, res = rowToBookLanguage row := by
  rcases h with h | h
  · unfold parseLanguage at h
    by_cases he : lang.isEmpty = true
    · rw [if_pos he] at h
      exact absurd h (by simp)
    · rw [if_neg he] at h
      cases hm : parseLanguageMatch languages lang with
      | none => rw [hm] at h; exact absurd h (by simp)
      | some m =>
        rw [hm] at h
        simp at h
        exact ⟨m, parseLanguageMatch_mem languages lang m hm, h.symm⟩
  · unfold getLanguageByName at h
    by_cases he : lang.isEmpty = true
    · rw [if_pos he] at h
      exact absurd h (by simp)
    · rw [if_neg he] at h
      cases hm : languages.find? (fun l =>
          toLowerL l.lname == toLowerL lang || toLowerL l.nativeName == toLowerL lang) with
      | none => rw [hm] at h; exact absurd h (by simp)
      | some m =>
        rw [hm] at h
        simp at h
        exact ⟨m, List.mem_of_find?_eq_some hm, h.symm⟩

/-- Witness for `language_lookup_single_row`: resolving `en` in a one-row
table. -/
theorem language_lookup_single_row_witness :
    ∃ row ∈ [englishRow], rowToBookLanguage englishRow = rowToBookLanguage row :=
  language_lookup_single_row [englishRow] (strL "en") (rowToBookLanguage englishRow)
    (Or.inl (by decide))

lemma extractSearch_names (resolve : List Char → List Char) (anchors : List Anchor) :
    (extractSearchNarrators resolve anchors).map Creator.cname =
      (extractSearchAuthors resolve anchors).map Creator.cname := by
  induction anchors with
  | nil => rfl
  | cons a t ih =>
    simp only [extractSearchNarrators, extractSearchAuthors, List.map_cons] at ih ⊢
    rw [ih]; rfl

/-- Claim C8: on search-result pages the narrator list is read from the same
`.authorLabel a` anchors as the author list, so the two lists have the same
length and pairwise-equal names, and each entry's URL is the same resolved
`href`, cleaned with `cleanNarratorUrl` for narrators and `cleanUrl` for
authors. -/
theorem search_narrators_mirror_authors (resolve : List Char → List Char)
    (anchors : List Anchor) :
    (extractSearchNarrators resolve anchors).length =
      (extractSearchAuthors resolve anchors).length ∧
    (extractSearchNarrators resolve anchors).map Creator.cname =
      (extractSearchAuthors resolve anchors).map Creator.cname ∧
    ∀ i : Nat,
      ((extractSearchNarrators resolve anchors)[i]?).map Creator.url =
        (anchors[i]?).map (fun a => a.href.map (fun h => cleanNarratorUrl (resolve h))) ∧
      ((extractSearchAuthors resolve anchors)[i]?).map Creator.url =
        (anchors[i]?).map (fun a => a.href.map (fun h => cleanUrl (resolve h))) := by
  refine ⟨?g1, extractSearch_names resolve anchors, ?g3⟩
  · simp [extractSearchNarrators, extractSearchAuthors]
  · intro i
    constructor
    · rw [extractSearchNarrators, List.getElem?_map]
      cases anchors[i]? with
      | none => rfl
      | some a => rfl
    · rw [extractSearchAuthors, List.getElem?_map]
      cases anchors[i]? with
      | none => rfl
      | some a => rfl

lemma takeWhile_all (p : Char → Bool) :
    ∀ l : List Char, l.all p = true → l.takeWhile p = l := by
  intro l
  induction l with
  | nil => intro _; rfl
  | cons a t ih =>
    intro h
    simp only [List.all_cons, Bool.and_eq_true] at h
    rw [List.takeWhile_cons, if_pos h.1, ih h.2]

lemma mem_of_getLast?_eq (c : Char) : ∀ l : List Char, l.getLast? = some c → c ∈ l := by
  intro l
  induction l with
  | nil => intro h; simp at h
  | cons a t ih =>
    intro h
    cases t with
    | nil =>
      have : a = c := by simpa using h
      rw [this]; exact List.mem_singleton_self c
    | cons b r =>
      rw [List.getLast?_cons_cons] at h
      exact List.mem_cons_of_mem a (ih h)

lemma digit_not_ws (c : Char) (h : isDigitChar c = true) : jsWs c = false := by
  simp only [isDigitChar, Bool.and_eq_true, decide_eq_true_eq] at h
  simp only [jsWs]
  simp only [Bool.or_eq_false_iff, decide_eq_false_iff_not]
  omega

lemma digits_jsTrim (d : List Char) (hall : d.all isDigitChar = true) : jsTrim d = d := by
  refine jsTrim_noop d ?h1 ?h2
  · intro c hc
    have hmem : c ∈ d := by
      cases d with
      | nil => simp at hc
      | cons a t =>
        have : a = c := by simpa using hc
        rw [← this]; exact List.mem_cons_self a t
    exact digit_not_ws c (by
      rw [List.all_eq_true] at hall
      exact hall c hmem)
  · intro c hc
    have hmem : c ∈ d := mem_of_getLast?_eq c d hc
    exact digit_not_ws c (by
      rw [List.all_eq_true] at hall
      exact hall c hmem)

lemma jsStrToNum_digits (d : List Char) (hall : d.all isDigitChar = true) (hne : d ≠ []) :
    jsStrToNum d = some ((natOfDigits d : ℚ)) := by
  cases d with
  | nil => exact absurd rfl hne
  | cons c t =>
    have hcd : isDigitChar c = true := by
      simp only [List.all_cons, Bool.and_eq_true] at hall
      exact hall.1
    have hcm : ¬ c = '-' := by
      intro h0
      rw [h0] at hcd
      simp [isDigitChar] at hcd
    have hcp : ¬ c = '+' := by
      intro h0
      rw [h0] at hcd
      simp [isDigitChar] at hcd
    simp [jsStrToNum, digits_jsTrim (c :: t) hall, takeWhile_all isDigitChar (c :: t) hall,
      hcm, hcp, List.drop_length]

lemma includes_bookSpace (d : List Char) :
    jsIncludes (bookSpacePat ++ d) bookPat = true := by
  show jsIncludes ('B' :: (['o', 'o', 'k', ' '] ++ d)) bookPat = true
  simp only [jsIncludes]
  have h : bookPat.isPrefixOf ('B' :: (['o', 'o', 'k', ' '] ++ d)) = true := by
    show bookPat.isPrefixOf ('B' :: 'o' :: 'o' :: 'k' :: (' ' :: d)) = true
    simp [bookPat, List.isPrefixOf]
  rw [h]
  rfl

lemma replaceFirst_bookSpace (d : List Char) :
    replaceFirstStr (bookSpacePat ++ d) bookSpacePat = d := by
  show replaceFirstStr ('B' :: (['o', 'o', 'k', ' '] ++ d)) bookSpacePat = d
  simp only [replaceFirstStr]
  rw [if_pos (show bookSpacePat.isPrefixOf ('B' :: (['o', 'o', 'k', ' '] ++ d)) = true from by
    show bookSpacePat.isPrefixOf (bookSpacePat ++ d) = true
    exact isPrefixOf_self_append bookSpacePat d)]
  show (bookSpacePat ++ d).drop bookSpacePat.length = d
  exact List.drop_left bookSpacePat d

lemma seriesStep_assign (arr : List (List Char)) (series : List Series) (i : Nat)
    (d : List Char) (p : List Char) (j : Nat)
    (hget : arr[i]? = some (bookSpacePat ++ d))
    (hall : d.all isDigitChar = true) (hne : d ≠ []) (h0 : natOfDigits d ≠ 0)
    (hp : prevTok arr i = some p)
    (hj : series.findIdx? (fun item : Series => item.sname == p) = some j) :
    seriesStep arr series i = setPartAt series j ((natOfDigits d : ℚ)) := by
  unfold seriesStep
  rw [hget]
  simp [includes_bookSpace, replaceFirst_bookSpace, jsStrToNum_digits d hall hne, hp, hj, h0]

lemma seriesStep_nonnumeric (arr : List (List Char)) (series : List Series) (i : Nat)
    (w : List Char)
    (hget : arr[i]? = some (bookSpacePat ++ w)) (hw : jsStrToNum w = none) :
    seriesStep arr series i = series := by
  unfold seriesStep
  rw [hget]
  simp [includes_bookSpace, replaceFirst_bookSpace, hw]

lemma seriesStep_no_prev (arr : List (List Char)) (series : List Series) (i : Nat)
    (d : List Char)
    (hget : arr[i]? = some (bookSpacePat ++ d))
    (hall : d.all isDigitChar = true) (hne : d ≠ []) (h0 : natOfDigits d ≠ 0)
    (hp : prevTok arr i = none) :
    seriesStep arr series i = series := by
  unfold seriesStep
  rw [hget]
  simp [includes_bookSpace, replaceFirst_bookSpace, jsStrToNum_digits d hall hne, hp, h0]

lemma seriesStep_no_candidate (arr : List (List Char)) (series : List Series) (i : Nat)
    (d : List Char) (p : List Char)
    (hget : arr[i]? = some (bookSpacePat ++ d))
    (hall : d.all isDigitChar = true) (hne : d ≠ []) (h0 : natOfDigits d ≠ 0)
    (hp : prevTok arr i = some p)
    (hj : series.findIdx? (fun item : Series => item.sname == p) = none) :
    seriesStep arr series i = series := by
  unfold seriesStep
  rw [hget]
  simp [includes_bookSpace, replaceFirst_bookSpace, jsStrToNum_digits d hall hne, hp, hj, h0]

lemma seriesStep_not_book (arr : List (List Char)) (series : List Series) (i : Nat)
    (tok : List Char)
    (hget : arr[i]? = some tok) (hb : jsIncludes tok bookPat = false) :
    seriesStep arr series i = series := by
  unfold seriesStep
  rw [hget]
  simp [hb]

/-- Claim C7: series attribution.  A split token of the exact shape
`Book <digits>` with nonzero value assigns that value as `part` to the first
candidate whose name equals the immediately preceding token; a non-numeric
`Book …` token, a missing preceding token (`i = 0`), or no candidate with the
preceding token's name leaves the candidate list unchanged.  On the spec's
example shapes: `["<name>", "Book <digits>"]` sets `part`, and
`["<name>", "Book Two"]` leaves it unset. -/
theorem series_book_attribution :
    (∀ (arr : List (List Char)) (series : List Series) (i : Nat)
        (d p : List Char) (j : Nat),
      arr[i]? = some (bookSpacePat ++ d) →
      d.all isDigitChar = true → d ≠ [] → natOfDigits d ≠ 0 →
      prevTok arr i = some p →
      series.findIdx? (fun item : Series => item.sname == p) = some j →
      seriesStep arr series i = setPartAt series j ((natOfDigits d : ℚ))) ∧
    (∀ (arr : List (List Char)) (series : List Series) (i : Nat) (w : List Char),
      arr[i]? = some (bookSpacePat ++ w) → jsStrToNum w = none →
      seriesStep arr series i = series) ∧
    (∀ (arr : List (List Char)) (series : List Series) (i : Nat) (d : List Char),
      arr[i]? = some (bookSpacePat ++ d) →
      d.all isDigitChar = true → d ≠ [] → natOfDigits d ≠ 0 →
      prevTok arr i = none →
      seriesStep arr series i = series) ∧
    (∀ (arr : List (List Char)) (series : List Series) (i : Nat) (d p : List Char),
      arr[i]? = some (bookSpacePat ++ d) →
      d.all isDigitChar = true → d ≠ [] → natOfDigits d ≠ 0 →
      prevTok arr i = some p →
      series.findIdx? (fun item : Series => item.sname == p) = none →
      seriesStep arr series i = series) ∧
    (∀ (nm : List Char) (url : Option (List Char)) (d : List Char),
      d.all isDigitChar = true → d ≠ [] → natOfDigits d ≠ 0 →
      jsIncludes nm bookPat = false →
      attachSeriesParts [nm, bookSpacePat ++ d] [⟨nm, url, none⟩] =
        [⟨nm, url, some ((natOfDigits d : ℚ))⟩]) ∧
    (∀ (nm : List Char) (url : Option (List Char)),
      jsIncludes nm bookPat = false →
      attachSeriesParts [nm, strL "Book Two"] [⟨nm, url, none⟩] =
        [⟨nm, url, none⟩]) := by
  refine ⟨seriesStep_assign, seriesStep_nonnumeric, seriesStep_no_prev,
    seriesStep_no_candidate, ?g5, ?g6⟩
  · intro nm url d hall hne h0 hb
    show seriesStep [nm, bookSpacePat ++ d]
        (seriesStep [nm, bookSpacePat ++ d] [⟨nm, url, none⟩] 0) 1 =
      [⟨nm, url, some ((natOfDigits d : ℚ))⟩]
    rw [seriesStep_not_book [nm, bookSpacePat ++ d] [⟨nm, url, none⟩] 0 nm rfl hb]
    rw [seriesStep_assign [nm, bookSpacePat ++ d] [⟨nm, url, none⟩] 1 d nm 0 rfl
      hall hne h0 (by simp [prevTok]) (by simp [List.findIdx?])]
    rfl
  · intro nm url hb
    show seriesStep [nm, strL "Book Two"]
        (seriesStep [nm, strL "Book Two"] [⟨nm, url, none⟩] 0) 1 =
      [⟨nm, url, none⟩]
    rw [seriesStep_not_book [nm, strL "Book Two"] [⟨nm, url, none⟩] 0 nm rfl hb]
    rw [seriesStep_nonnumeric [nm, strL "Book Two"] [⟨nm, url, none⟩] 1 (strL "Two")
      (by rfl) (by decide)]

/-- Witness for `series_book_attribution` on the spec's Harry Potter example. -/
theorem series_book_attribution_witness :
    attachSeriesParts [strL "Harry Potter", bookSpacePat ++ strL "1"]
        [⟨strL "Harry Potter", none, none⟩] =
      [⟨strL "Harry Potter", none, some ((natOfDigits (strL "1") : ℚ))⟩] :=
  series_book_attribution.2.2.2.2.1 (strL "Harry Potter") none (strL "1")
    (by decide) (by decide) (by decide) (by decide)

lemma applyBreadcrumb_none (baseUrl : List Char) (ld : List LdJson) (book : Book)
    (h : ldFind ld (strL "BreadcrumbList") = none) :
    applyBreadcrumb baseUrl ld book = Except.ok book := by
  unfold applyBreadcrumb
  rw [h]

lemma applyBreadcrumb_shape (baseUrl : List Char) (ld : List LdJson) (book b1 : Book)
    (h : applyBreadcrumb baseUrl ld book = Except.ok b1) :
    b1 = { book with genres := b1.genres } := by
  unfold applyBreadcrumb at h
  split at h
  · simp at h
    rw [← h]
  · split at h
    · exact absurd h (by simp)
    · split at h
      · exact absurd h (by simp)
      · simp at h
        rw [← h]

lemma applyProduct_none (ld : List LdJson) (book : Book)
    (h : ldFind ld (strL "Product") = none) : applyProduct ld book = book := by
  unfold applyProduct
  rw [h]

lemma applyAudiobook_none (table : List LangRow) (cleanDescr : List Char → List Char)
    (ld : List LdJson) (book : Book)
    (h : ldFind ld (strL "Audiobook") = none) :
    applyAudiobook table cleanDescr ld book = book := by
  unfold applyAudiobook
  rw [h]

lemma applyProduct_preserves (ld : List LdJson) (b : Book) :
    (applyProduct ld b).url = b.url ∧ (applyProduct ld b).authors = b.authors ∧
    (applyProduct ld b).narrators = b.narrators ∧ (applyProduct ld b).series = b.series ∧
    (applyProduct ld b).copyright = b.copyright ∧
    (applyProduct ld b).copyrightYear = b.copyrightYear ∧
    (applyProduct ld b).title = b.title ∧ (applyProduct ld b).cleanTitle = b.cleanTitle ∧
    (applyProduct ld b).publisher = b.publisher ∧ (applyProduct ld b).language = b.language ∧
    (applyProduct ld b).description = b.description ∧
    (applyProduct ld b).datePublished = b.datePublished ∧
    (applyProduct ld b).rating = b.rating ∧ (applyProduct ld b).price = b.price ∧
    (applyProduct ld b).isAbridged = b.isAbridged ∧
    (applyProduct ld b).duration = b.duration ∧
    (applyProduct ld b).coverUrl = b.coverUrl ∧ (applyProduct ld b).genres = b.genres := by
  unfold applyProduct
  cases ldFind ld (strL "Product") <;>
    exact ⟨rfl, rfl, rfl, rfl, rfl, rfl, rfl, rfl, rfl, rfl, rfl, rfl, rfl, rfl, rfl, rfl,
      rfl, rfl⟩

lemma applyAudiobook_preserves (table : List LangRow) (cleanDescr : List Char → List Char)
    (ld : List LdJson) (b : Book) :
    (applyAudiobook table cleanDescr ld b).url = b.url ∧
    (applyAudiobook table cleanDescr ld b).authors = b.authors ∧
    (applyAudiobook table cleanDescr ld b).narrators = b.narrators ∧
    (applyAudiobook table cleanDescr ld b).series = b.series ∧
    (applyAudiobook table cleanDescr ld b).copyright = b.copyright ∧
    (applyAudiobook table cleanDescr ld b).copyrightYear = b.copyrightYear ∧
    (applyAudiobook table cleanDescr ld b).asin = b.asin ∧
    (applyAudiobook table cleanDescr ld b).sku = b.sku ∧
    (applyAudiobook table cleanDescr ld b).genres = b.genres := by
  unfold applyAudiobook
  cases ldFind ld (strL "Audiobook") <;> exact ⟨rfl, rfl, rfl, rfl, rfl, rfl, rfl, rfl, rfl⟩

lemma applyLdJson_ok (table : List LangRow) (cleanDescr : List Char → List Char)
    (baseUrl : List Char) (book : Book) (ld : List LdJson) (b : Book)
    (h : applyLdJson table cleanDescr baseUrl book ld = Except.ok b) :
    ∃ b1, applyBreadcrumb baseUrl ld book = Except.ok b1 ∧
      b = applyAudiobook table cleanDescr ld (applyProduct ld b1) := by
  unfold applyLdJson at h
  cases hb : applyBreadcrumb baseUrl ld book with
  | error u => rw [hb] at h; exact absurd h (by simp)
  | ok b1 =>
    rw [hb] at h
    simp at h
    exact ⟨b1, rfl, h.symm⟩

/-- Claim C2: in the current TS detail extractor the three linked-data kinds
are each guarded, so the absence of any kind is non-fatal — the fields that
kind supplies are left exactly as the DOM-only record had them — and when all
three kinds are absent the extractor returns the DOM-only record unchanged
(`Except.ok`, never a thrown error); the DOM-only fields (url, authors,
narrators, series, copyright, copyrightYear) are never touched by this phase. -/
theorem detail_missing_blocks_nonfatal (table : List LangRow)
    (cleanDescr : List Char → List Char) (baseUrl : List Char) (book : Book)
    (ld : List LdJson) :
    (ldFind ld (strL "BreadcrumbList") = none → ldFind ld (strL "Product") = none →
      ldFind ld (strL "Audiobook") = none →
      applyLdJson table cleanDescr baseUrl book ld = Except.ok book) ∧
    (∀ b, applyLdJson table cleanDescr baseUrl book ld = Except.ok b →
      b.url = book.url ∧ b.authors = book.authors ∧ b.narrators = book.narrators ∧
      b.series = book.series ∧ b.copyright = book.copyright ∧
      b.copyrightYear = book.copyrightYear) ∧
    (∀ b, applyLdJson table cleanDescr baseUrl book ld = Except.ok b →
      ldFind ld (strL "Product") = none → b.asin = book.asin ∧ b.sku = book.sku) ∧
    (∀ b, applyLdJson table cleanDescr baseUrl book ld = Except.ok b →
      ldFind ld (strL "Audiobook") = none →
      b.title = book.title ∧ b.cleanTitle = book.cleanTitle ∧
      b.publisher = book.publisher ∧ b.language = book.language ∧
      b.description = book.description ∧ b.datePublished = book.datePublished ∧
      b.rating = book.rating ∧ b.price = book.price ∧ b.isAbridged = book.isAbridged ∧
      b.duration = book.duration ∧ b.coverUrl = book.coverUrl) ∧
    (∀ b, applyLdJson table cleanDescr baseUrl book ld = Except.ok b →
      ldFind ld (strL "BreadcrumbList") = none → b.genres = book.genres) := by
  refine ⟨?g1, ?g2, ?g3, ?g4, ?g5⟩
  · intro h1 h2 h3
    unfold applyLdJson
    rw [applyBreadcrumb_none baseUrl ld book h1]
    show Except.ok (applyAudiobook table cleanDescr ld (applyProduct ld book)) =
      Except.ok book
    rw [applyProduct_none ld book h2, applyAudiobook_none table cleanDescr ld book h3]
  · intro b h
    obtain ⟨b1, hb, rfl⟩ := applyLdJson_ok table cleanDescr baseUrl book ld b h
    have hshape := applyBreadcrumb_shape baseUrl ld book b1 hb
    have hA := applyAudiobook_preserves table cleanDescr ld (applyProduct ld b1)
    have hP := applyProduct_preserves ld b1
    refine ⟨?_, ?_, ?_, ?_, ?_, ?_⟩
    · rw [hA.1, hP.1, hshape]
    · rw [hA.2.1, hP.2.1, hshape]
    · rw [hA.2.2.1, hP.2.2.1, hshape]
    · rw [hA.2.2.2.1, hP.2.2.2.1, hshape]
    · rw [hA.2.2.2.2.1, hP.2.2.2.2.1, hshape]
    · rw [hA.2.2.2.2.2.1, hP.2.2.2.2.2.1, hshape]
  · intro b h hp
    obtain ⟨b1, hb, rfl⟩ := applyLdJson_ok table cleanDescr baseUrl book ld b h
    have hshape := applyBreadcrumb_shape baseUrl ld book b1 hb
    have hA := applyAudiobook_preserves table cleanDescr ld (applyProduct ld b1)
    rw [applyProduct_none ld b1 hp] at hA ⊢
    exact ⟨by rw [hA.2.2.2.2.2.2.1, hshape], by rw [hA.2.2.2.2.2.2.2.1, hshape]⟩
  · intro b h ha
    obtain ⟨b1, hb, rfl⟩ := applyLdJson_ok table cleanDescr baseUrl book ld b h
    have hshape := applyBreadcrumb_shape baseUrl ld book b1 hb
    have hP := applyProduct_preserves ld b1
    rw [applyAudiobook_none table cleanDescr ld (applyProduct ld b1) ha]
    refine ⟨?_, ?_, ?_, ?_, ?_, ?_, ?_, ?_, ?_, ?_, ?_⟩
    · rw [hP.2.2.2.2.2.2.1, hshape]
    · rw [hP.2.2.2.2.2.2.2.1, hshape]
    · rw [hP.2.2.2.2.2.2.2.2.1, hshape]
    · rw [hP.2.2.2.2.2.2.2.2.2.1, hshape]
    · rw [hP.2.2.2.2.2.2.2.2.2.2.1, hshape]
    · rw [hP.2.2.2.2.2.2.2.2.2.2.2.1, hshape]
    · rw [hP.2.2.2.2.2.2.2.2.2.2.2.2.1, hshape]
    · rw [hP.2.2.2.2.2.2.2.2.2.2.2.2.2.1, hshape]
    · rw [hP.2.2.2.2.2.2.2.2.2.2.2.2.2.2.1, hshape]
    · rw [hP.2.2.2.2.2.2.2.2.2.2.2.2.2.2.2.1, hshape]
    · rw [hP.2.2.2.2.2.2.2.2.2.2.2.2.2.2.2.2.1, hshape]
  · intro b h hbc
    obtain ⟨b1, hb, rfl⟩ := applyLdJson_ok table cleanDescr baseUrl book ld b h
    rw [applyBreadcrumb_none baseUrl ld book hbc] at hb
    have hb1 : b1 = book := by simpa using hb.symm
    have hA := applyAudiobook_preserves table cleanDescr ld (applyProduct ld b1)
    have hP := applyProduct_preserves ld b1
    rw [hA.2.2.2.2.2.2.2.2, hP.2.2.2.2.2.2.2.2.2.2.2.2.2.2.2.2.2, hb1]

/-- Witness for `detail_missing_blocks_nonfatal`: with no linked-data blocks
at all, the DOM-only record comes back unchanged. -/
theorem detail_missing_blocks_nonfatal_witness :
    applyLdJson [] (fun x => x) [] domOnlyBook [] = Except.ok domOnlyBook :=
  (detail_missing_blocks_nonfatal [] (fun x => x) [] domOnlyBook []).1 rfl rfl rfl

/-- Claim C6 (counterexample): with the profile fetch and parse succeeded, a
MusicGroup block carrying a fresh name and bio but no `url` makes the `id`
extraction throw, and the catch returns the **original** Creator — the values
already obtained for name, bio, thumbnail and the Person block's image are all
discarded, contradicting the claimed per-field independence. -/
theorem authorInfo_fallback_not_independent :
    parseAuthorInfo c6Author c6Page = c6Author ∧
    (parseAuthorInfo c6Author c6Page).cname ≠ strL "New Name" ∧
    (parseAuthorInfo c6Author c6Page).imageUrl = none := by
  refine ⟨by decide, by decide, by decide⟩

/-- Claim C6 (amended): the enrichment result is characterized by three cases.
With no MusicGroup block, name/bio/id/url keep the input's values while
thumbnail and (if a Person block exists) image are overwritten; with a
MusicGroup block that has a `url`, name and bio fall back independently via
`||`, `id` is the url's last path segment, and url falls back only when empty;
but a MusicGroup block without `url` throws inside the enrichment and the
whole input Creator is returned unchanged. -/
theorem parseAuthorInfo_amended (author : Creator) (pg : AuthorPage)
    (u0 : List Char) (hu : author.url = some u0) (hne : u0 ≠ []) :
    (ldFind pg.ldJsonList (strL "MusicGroup") = none →
      parseAuthorInfo author pg =
        applyPersonBlock pg { author with thumbnailImageUrl := pg.thumbnailSrc }) ∧
    (∀ mg, ldFind pg.ldJsonList (strL "MusicGroup") = some mg → mg.url = none →
      parseAuthorInfo author pg = author) ∧
    (∀ mg u, ldFind pg.ldJsonList (strL "MusicGroup") = some mg → mg.url = some u →
      parseAuthorInfo author pg =
        applyPersonBlock pg
          { author with
            thumbnailImageUrl := pg.thumbnailSrc
            cname := jsOrStrReq mg.jname author.cname
            bio := jsOrStrOpt mg.description author.bio
            id := some (lastSegment u)
            url := if u.isEmpty then author.url else some u }) := by
  have hstep : parseAuthorInfo author pg =
      match parseAuthorInfoCore author pg with
      | Except.ok a => a
      | Except.error _ => author := by
    unfold parseAuthorInfo
    simp only [hu]
    rw [if_neg (by simp [List.isEmpty_iff, hne])]
  refine ⟨?g1, ?g2, ?g3⟩
  · intro hmg
    rw [hstep]
    unfold parseAuthorInfoCore
    simp only [hmg]
  · intro mg hmg hurl
    rw [hstep]
    unfold parseAuthorInfoCore
    simp only [hmg, hurl]
  · intro mg u hmg hurl
    rw [hstep]
    unfold parseAuthorInfoCore
    simp only [hmg, hurl]

/-- Witness for `parseAuthorInfo_amended` at the counterexample's inputs (the
missing-`url` case). -/
theorem parseAuthorInfo_amended_witness :
    parseAuthorInfo c6Author c6Page = c6Author :=
  (parseAuthorInfo_amended c6Author c6Page (strL "https://a/author/X") rfl
    (by decide)).2.1 c6MgBlock (by decide) rfl

end AudibleApi
